import Mathlib

/-!
Verification of the `l_async` C++11 asynchronous-programming primitives
(`l_async.h`): the self-iterating `loop` trampoline, the release-triggered
`result` cell, and the single-request `slot` rendezvous.

The embedding is shallow: each primitive's shared mutable record becomes an
explicit state structure, and each C++ member function becomes a Lean function
on that state.  Callback invocations are recorded as explicit events; callback
identities are `Nat` tokens.  `std::shared_ptr` reference counting is modelled
by explicit owner counts, with the destructor side effects (the result cell's
finalizer, the slot's termination notification) firing at the recorded moment
the count reaches zero.
-/

namespace LAsync

/-! ## Loop

`l_async::loop` (l_async.h:118-142).  The shared record is
`pair<function<void(const loop&)>, bool>`; `operator()` is

    while ((body->second = !body->second)) { body->first(*this); }

State of one loop record: the flag, plus instrumentation counters used to
state the claims (number of body invocations entered, number of `K()`
invocations made, current body-nesting depth, maximal nesting depth seen).
The user body is modelled by `ks : Nat → Nat`: the `i`-th invocation of the
body (0-based) synchronously invokes its continuation `K` exactly `ks i`
times and does nothing else observable to the loop.  Execution is fuel
bounded; `none` means the fuel ran out before the C++ code would have
returned. -/

structure LoopSt where
  flag : Bool
  count : Nat
  kcalls : Nat
  depth : Nat
  maxDepth : Nat
deriving DecidableEq

/-- The state of a freshly allocated loop record: flag `false`, nothing ran. -/
def LoopSt.init : LoopSt := ⟨false, 0, 0, 0, 0⟩

mutual

/-- `loop::operator()` — the drive routine:
`while ((body->second = !body->second)) { body->first(*this); }`. -/
def drive (ks : Nat → Nat) : Nat → LoopSt → Option LoopSt
  | 0, _ => none
  | fuel+1, s =>
    let s1 : LoopSt := { s with flag := !s.flag }
    if s1.flag then
      match runBody ks fuel s1 with
      | some s2 => drive ks fuel s2
      | none => none
    else
      some s1
termination_by structural fuel _ => fuel

/-- One invocation `body->first(*this)`: enter the body (bumping the
invocation counter and the nesting depth), perform its `ks i` synchronous
continuation calls, return (restoring the depth). -/
def runBody (ks : Nat → Nat) : Nat → LoopSt → Option LoopSt
  | 0, _ => none
  | fuel+1, s =>
    match callK ks fuel (ks s.count)
        { s with count := s.count + 1, depth := s.depth + 1,
                 maxDepth := max s.maxDepth (s.depth + 1) } with
    | some s2 => some { s2 with depth := s2.depth - 1 }
    | none => none
termination_by structural fuel _ => fuel

/-- The body's remaining synchronous `K()` calls: each call re-enters the
drive routine on the same shared record. -/
def callK (ks : Nat → Nat) : Nat → Nat → LoopSt → Option LoopSt
  | 0, _, _ => none
  | _+1, 0, s => some s
  | fuel+1, n+1, s =>
    match drive ks fuel { s with kcalls := s.kcalls + 1 } with
    | some s1 => callK ks fuel n s1
    | none => none
termination_by structural fuel _ _ => fuel

end

/-- `loop::loop(body)` — allocate the record with flag `false` and enter the
drive routine (`operator()`) before the constructor returns. -/
def loopConstruct (ks : Nat → Nat) (fuel : Nat) : Option LoopSt :=
  drive ks fuel LoopSt.init

/-- Inversion: a re-entered drive (`flag = true` on entry, i.e. a nested
synchronous `K()` while the body runs) just flips the flag back and returns. -/
theorem drive_true (ks : Nat → Nat) (fuel : Nat) (s s' : LoopSt)
    (hf : s.flag = true) (h : drive ks (fuel+1) s = some s') :
    s' = { s with flag := false } := by
  simp [drive, hf] at h
  exact h.symm

/-- Inversion: a drive entered with `flag = false` toggles to `true`, runs the
body once, and continues the `while` loop on the resulting state. -/
theorem drive_false (ks : Nat → Nat) (fuel : Nat) (s s' : LoopSt)
    (hf : s.flag = false) (h : drive ks (fuel+1) s = some s') :
    ∃ s2, runBody ks fuel { s with flag := true } = some s2 ∧
      drive ks fuel s2 = some s' := by
  simp [drive, hf] at h
  cases hrb : runBody ks fuel { s with flag := true } with
  | none => rw [hrb] at h; exact Option.noConfusion h
  | some s2 => rw [hrb] at h; exact ⟨s2, rfl, h⟩

/-- Inversion of one body invocation. -/
theorem runBody_inv (ks : Nat → Nat) (fuel : Nat) (s s' : LoopSt)
    (h : runBody ks (fuel+1) s = some s') :
    ∃ s2, callK ks fuel (ks s.count)
        { s with count := s.count + 1, depth := s.depth + 1,
                 maxDepth := max s.maxDepth (s.depth + 1) } = some s2 ∧
      s' = { s2 with depth := s2.depth - 1 } := by
  simp only [runBody] at h
  cases hck : callK ks fuel (ks s.count)
      { s with count := s.count + 1, depth := s.depth + 1,
               maxDepth := max s.maxDepth (s.depth + 1) } with
  | none => rw [hck] at h; exact Option.noConfusion h
  | some s2 =>
    rw [hck] at h
    exact ⟨s2, rfl, (Option.some.inj h).symm⟩

/-- Inversion: zero continuation calls leave the state unchanged. -/
theorem callK_zero (ks : Nat → Nat) (fuel : Nat) (s s' : LoopSt)
    (h : callK ks fuel 0 s = some s') : s' = s := by
  cases fuel with
  | zero => simp [callK] at h
  | succ fuel =>
    simp only [callK, Option.some.injEq] at h
    exact h.symm

/-- Inversion: each `K()` call re-enters the drive routine. -/
theorem callK_succ (ks : Nat → Nat) (fuel n : Nat) (s s' : LoopSt)
    (h : callK ks (fuel+1) (n+1) s = some s') :
    ∃ s1, drive ks fuel { s with kcalls := s.kcalls + 1 } = some s1 ∧
      callK ks fuel n s1 = some s' := by
  simp only [callK] at h
  cases hd : drive ks fuel { s with kcalls := s.kcalls + 1 } with
  | none => rw [hd] at h; exact Option.noConfusion h
  | some s1 => rw [hd] at h; exact ⟨s1, rfl, h⟩

/-- Joint accounting invariant of the trampoline, by induction on the fuel.

* A completed `drive` always leaves the flag `false`.  Entered with the flag
  `true` (re-entered from inside a running body), it only flips the flag back.
  Entered with the flag `false`, it performs exactly one body invocation more
  than the number of `K()` calls made under it.
* A completed body invocation either leaves the flag `true` (its last nested
  toggle, if any, requested one more iteration) with one extra invocation on
  the books, or leaves it `false` with invocations and `K()` calls balanced.
* `callK` from inside a running body: with no calls it is the identity; with
  at least one call the invocations fall one short of the `K()` calls (the
  first call is collapsed by the flag). -/
theorem drive_accounting (ks : Nat → Nat) : ∀ fuel : Nat,
    (∀ s s', drive ks fuel s = some s' →
       s'.flag = false ∧
       (s.flag = true → s' = { s with flag := false }) ∧
       (s.flag = false → s'.count + s.kcalls = s.count + s'.kcalls + 1)) ∧
    (∀ s s', s.flag = true → runBody ks fuel s = some s' →
       (s'.flag = true ∧ s'.count + s.kcalls = s.count + s'.kcalls + 1) ∨
       (s'.flag = false ∧ s'.count + s.kcalls = s.count + s'.kcalls)) ∧
    (∀ n s s', callK ks fuel n s = some s' →
       (s.flag = true →
          (n = 0 → s' = s) ∧
          (0 < n → s'.flag = false ∧
            s'.count + s.kcalls + 1 = s.count + s'.kcalls)) ∧
       (s.flag = false →
          s'.flag = false ∧ s'.count + s.kcalls = s.count + s'.kcalls)) := by
  intro fuel
  induction fuel with
  | zero =>
    refine ⟨?_, ?_, ?_⟩
    · intro s s' h; simp [drive] at h
    · intro s s' _ h; simp [runBody] at h
    · intro n s s' h; simp [callK] at h
  | succ fuel ih =>
    obtain ⟨ihd, ihb, ihk⟩ := ih
    refine ⟨?_, ?_, ?_⟩
    · intro s s' h
      cases hf : s.flag with
      | true =>
        have hs := drive_true ks fuel s s' hf h
        subst hs
        exact ⟨rfl, fun _ => rfl, fun hc => by simp [hf] at hc⟩
      | false =>
        obtain ⟨s2, hrb, hd⟩ := drive_false ks fuel s s' hf h
        have hb := ihb _ s2 rfl hrb
        have hdp := ihd s2 s' hd
        refine ⟨hdp.1, fun hc => by simp [hf] at hc, fun _ => ?_⟩
        rcases hb with ⟨hb1, hb2⟩ | ⟨hb1, hb2⟩
        · have hs2 := hdp.2.1 hb1
          subst hs2
          have hb2' : s2.count + s.kcalls = s.count + s2.kcalls + 1 := hb2
          exact hb2'
        · have h3 : s'.count + s2.kcalls = s2.count + s'.kcalls + 1 :=
            hdp.2.2 hb1
          have hb2' : s2.count + s.kcalls = s.count + s2.kcalls := hb2
          omega
    · intro s s' hf h
      obtain ⟨s2, hck, hs'⟩ := runBody_inv ks fuel s s' h
      subst hs'
      have hk := ihk (ks s.count) _ s2 hck
      have hk1 := hk.1 hf
      rcases Nat.eq_zero_or_pos (ks s.count) with h0 | hpos
      · have hs2 := hk1.1 h0
        subst hs2
        left
        refine ⟨hf, ?_⟩
        show s.count + 1 + s.kcalls = s.count + s.kcalls + 1
        omega
      · obtain ⟨hfl, heq⟩ := hk1.2 hpos
        right
        refine ⟨hfl, ?_⟩
        have heq' : s2.count + s.kcalls + 1 = (s.count + 1) + s2.kcalls := heq
        show s2.count + s.kcalls = s.count + s2.kcalls
        omega
    · intro n s s' h
      cases n with
      | zero =>
        have hs := callK_zero ks (fuel+1) s s' h
        subst hs
        exact ⟨fun _ => ⟨fun _ => rfl, fun hc => absurd hc (by omega)⟩,
               fun hf => ⟨hf, by omega⟩⟩
      | succ n =>
        obtain ⟨s1, hd, hk⟩ := callK_succ ks fuel n s s' h
        have hdp := ihd _ s1 hd
        have hkp := ihk n s1 s' hk
        constructor
        · intro hf
          refine ⟨fun hc => absurd hc (Nat.succ_ne_zero n), fun _ => ?_⟩
          have hs1 : s1 = { s with kcalls := s.kcalls + 1, flag := false } :=
            hdp.2.1 hf
          subst hs1
          have hk2 := hkp.2 rfl
          refine ⟨hk2.1, ?_⟩
          have h2 : s'.count + (s.kcalls + 1) = s.count + s'.kcalls := hk2.2
          omega
        · intro hf
          have h1 : s1.count + (s.kcalls + 1) = s.count + s1.kcalls + 1 :=
            hdp.2.2 hf
          have h2 := hkp.2 hdp.1
          refine ⟨h2.1, ?_⟩
          have h2' : s'.count + s1.kcalls = s1.count + s'.kcalls := h2.2
          omega

/-- A body that calls `K()` at most once causes no nested body run: zero or
one continuation call from inside a running body leaves the depth counters
untouched (the single call is collapsed by the flag). -/
theorem callK_small (ks : Nat → Nat) (fuel n : Nat) (s s' : LoopSt)
    (hn : n ≤ 1) (hf : s.flag = true) (h : callK ks fuel n s = some s') :
    s'.depth = s.depth ∧ s'.maxDepth = s.maxDepth := by
  cases n with
  | zero =>
    have hs := callK_zero ks fuel s s' h
    subst hs
    exact ⟨rfl, rfl⟩
  | succ n =>
    have hn0 : n = 0 := by omega
    subst hn0
    cases fuel with
    | zero => simp [callK] at h
    | succ fuel =>
      obtain ⟨s1, hd, hk⟩ := callK_succ ks fuel 0 s s' h
      have hs1 : s1 = { s with kcalls := s.kcalls + 1, flag := false } :=
        ((drive_accounting ks fuel).1 _ s1 hd).2.1 hf
      subst hs1
      have hs := callK_zero ks fuel _ s' hk
      subst hs
      exact ⟨rfl, rfl⟩

/-- One body invocation of a loop whose body never calls `K()` more than once
per invocation: the depth returns to its old value and the recorded maximal
depth grows exactly to the depth of this invocation. -/
theorem runBody_depth (ks : Nat → Nat) (hks : ∀ i, ks i ≤ 1) (fuel : Nat)
    (s s' : LoopSt) (hf : s.flag = true) (h : runBody ks fuel s = some s') :
    s'.depth = s.depth ∧ s'.maxDepth = max s.maxDepth (s.depth + 1) := by
  cases fuel with
  | zero => simp [runBody] at h
  | succ fuel =>
    obtain ⟨s2, hck, hs'⟩ := runBody_inv ks fuel s s' h
    subst hs'
    have h2 := callK_small ks fuel (ks s.count)
      { s with count := s.count + 1, depth := s.depth + 1,
               maxDepth := max s.maxDepth (s.depth + 1) } s2 (hks s.count) hf hck
    have hd : s2.depth = s.depth + 1 := h2.1
    have hm : s2.maxDepth = max s.maxDepth (s.depth + 1) := h2.2
    constructor
    · show s2.depth - 1 = s.depth
      omega
    · exact hm

/-- Depth bound for the drive routine when every body invocation calls `K()`
at most once: the drive never nests the body, so the maximal depth reached is
at most one above the depth at which it was entered. -/
theorem drive_depth (ks : Nat → Nat) (hks : ∀ i, ks i ≤ 1) :
    ∀ fuel (s s' : LoopSt), drive ks fuel s = some s' →
      s'.depth = s.depth ∧ s'.maxDepth ≤ max s.maxDepth (s.depth + 1) := by
  intro fuel
  induction fuel with
  | zero => intro s s' h; simp [drive] at h
  | succ fuel ih =>
    intro s s' h
    cases hf : s.flag with
    | true =>
      have hs := drive_true ks fuel s s' hf h
      subst hs
      exact ⟨rfl, Nat.le_max_left _ _⟩
    | false =>
      obtain ⟨s2, hrb, hd⟩ := drive_false ks fuel s s' hf h
      have hb := runBody_depth ks hks fuel _ s2 rfl hrb
      have hb1 : s2.depth = s.depth := hb.1
      have hb2 : s2.maxDepth = max s.maxDepth (s.depth + 1) := hb.2
      have hdd := ih s2 s' hd
      refine ⟨by omega, ?_⟩
      calc s'.maxDepth ≤ max s2.maxDepth (s2.depth + 1) := hdd.2
    _ = max (max s.maxDepth (s.depth + 1)) (s.depth + 1) := by
          rw [hb2, hb1]
    _ = max s.maxDepth (s.depth + 1) := by
          rw [max_assoc, max_self]

/-- C1 (counterexample).  The claim says the body is never active twice in
the same call stack however many times a body invocation synchronously
invokes `K`.  The code refutes this: if the first body invocation calls `K()`
twice, the first call flips the flag to `false` and is collapsed, but the
second flips it back to `true` and the re-entered drive invokes the body
again while the first invocation is still in progress — nesting depth 2. -/
theorem loop_nested_reentry_cex :
    (loopConstruct (fun i => if i = 0 then 2 else 0) 20).map LoopSt.maxDepth
      = some 2 := by
  simp [loopConstruct, LoopSt.init, drive, runBody, callK]

/-- C1 (amended): for every loop whose body invokes its continuation `K` at
most once synchronously per body invocation, no new body invocation starts
while a previous one is in progress: the body-nesting depth attributable to
the loop never exceeds 1, independently of the total number of synchronous
`K()` calls. -/
theorem loop_body_never_nested (ks : Nat → Nat) (fuel : Nat) (s' : LoopSt)
    (hks : ∀ i, ks i ≤ 1) (h : loopConstruct ks fuel = some s') :
    s'.maxDepth ≤ 1 := by
  have hd := drive_depth ks hks fuel LoopSt.init s' h
  simpa [LoopSt.init] using hd.2

/-- Witness for `loop_body_never_nested` at a concrete loop: body calls `K`
once in each of its first two invocations, then stops. -/
theorem loop_body_never_nested_witness :
    (⟨false, 3, 2, 0, 1⟩ : LoopSt).maxDepth ≤ 1 :=
  loop_body_never_nested (fun i => if i < 2 then 1 else 0) 20 ⟨false, 3, 2, 0, 1⟩
    (fun i => by by_cases h : i < 2 <;> simp [h])
    (by simp [loopConstruct, LoopSt.init, drive, runBody, callK])

/-- C2: loop construction starts from a record whose flag is initialized to
`false` and immediately enters the drive routine, which invokes the body (at
least once) before the constructor returns; every invocation of the loop
handle runs the drive routine: toggle the flag, and if it became `true`
invoke the body on the shared record and continue the loop, otherwise
return. -/
theorem loop_construct_drive (ks : Nat → Nat) (fuel : Nat) :
    LoopSt.init.flag = false ∧
    loopConstruct ks fuel = drive ks fuel LoopSt.init ∧
    (∀ s', loopConstruct ks fuel = some s' → 1 ≤ s'.count) ∧
    (∀ s : LoopSt, s.flag = true →
       drive ks (fuel+1) s = some { s with flag := false }) ∧
    (∀ s : LoopSt, s.flag = false →
       drive ks (fuel+1) s =
         (runBody ks fuel { s with flag := true }).bind (drive ks fuel)) := by
  refine ⟨rfl, rfl, ?_, ?_, ?_⟩
  · intro s' h
    have := ((drive_accounting ks fuel).1 LoopSt.init s' h).2.2 rfl
    have h2 : s'.count + 0 = 0 + s'.kcalls + 1 := this
    omega
  · intro s hf
    simp [drive, hf]
  · intro s hf
    simp only [drive, hf, Bool.not_false]
    cases hrb : runBody ks fuel { s with flag := true } <;> simp [hrb]

/-- Witness for `loop_construct_drive`: a body that never calls `K` is
invoked exactly once during construction. -/
theorem loop_construct_drive_witness :
    1 ≤ (⟨false, 1, 0, 0, 1⟩ : LoopSt).count :=
  (loop_construct_drive (fun _ => 0) 5).2.2.1 ⟨false, 1, 0, 0, 1⟩
    (by simp [loopConstruct, LoopSt.init, drive, runBody, callK])

/-- C8: every completed loop run whose body invoked its continuation `K()`
synchronously `N` times in total performs exactly `N + 1` body
invocations. -/
theorem loop_iterations_eq_kcalls_succ (ks : Nat → Nat) (fuel : Nat)
    (s' : LoopSt) (h : loopConstruct ks fuel = some s') :
    s'.count = s'.kcalls + 1 := by
  have := ((drive_accounting ks fuel).1 LoopSt.init s' h).2.2 rfl
  have h2 : s'.count + 0 = 0 + s'.kcalls + 1 := this
  omega

/-- Witness for `loop_iterations_eq_kcalls_succ`: a loop whose body calls
`K()` once in each of its first three invocations makes 3 continuation calls
and 4 body invocations. -/
theorem loop_iterations_eq_kcalls_succ_witness :
    (⟨false, 4, 3, 0, 1⟩ : LoopSt).count
      = (⟨false, 4, 3, 0, 1⟩ : LoopSt).kcalls + 1 :=
  loop_iterations_eq_kcalls_succ (fun i => if i < 3 then 1 else 0) 30
    ⟨false, 4, 3, 0, 1⟩
    (by simp [loopConstruct, LoopSt.init, drive, runBody, callK])

/-! ## Slot

`l_async::slot` (l_async.h:226-298).  The shared record `data` holds two
`std::function` fields, `who_awaits_request : void(bool)` (producer side) and
`who_awaits_data : void(T)` (consumer side); both are modelled as
`Option Nat` — `none` for an empty `std::function`, `some id` for a stored
callback identified by the token `id`.  The consumer handle holds the record
through a `shared_ptr`, the producer handle through a `weak_ptr`; `alive`
records whether the consumer-side strong reference still exists (whether
`ptr.lock()` succeeds).

Each operation returns the successor state paired with the list of callback
invocations the C++ code performs, in order; the state fields are updated
*before* the recorded invocations happen, exactly as in the source (which
swaps a callback out of its field, or stores the new listener, before
calling).  `none` models a failed `assert`. -/

structure SlotSt (T : Type) where
  alive : Bool
  whoAwaitsRequest : Option Nat
  whoAwaitsData : Option Nat
deriving DecidableEq

/-- One callback invocation performed by slot code: a request listener called
with the `terminate` flag, or a data listener called with a value. -/
inductive SlotCall (T : Type) where
  | toReq (id : Nat) (terminated : Bool)
  | toData (id : Nat) (v : T)
deriving DecidableEq

/-- `slot::provider::await(request_listener)` (l_async.h:254-266): if the
weak pointer is dead, invoke the listener with `terminate = true`; otherwise
assert no request listener is stored, and either invoke the new listener with
`terminate = false` at once (a data listener is already waiting) or store
it. -/
def slotAwait {T : Type} (r : Nat) (s : SlotSt T) :
    Option (SlotSt T × List (SlotCall T)) :=
  if s.alive then
    if s.whoAwaitsRequest.isSome then none
    else if s.whoAwaitsData.isSome then some (s, [.toReq r false])
    else some ({ s with whoAwaitsRequest := some r }, [])
  else some (s, [.toReq r true])

/-- `slot::provider::operator()(value)` (l_async.h:268-276): if the weak
pointer is dead, do nothing; otherwise assert a data listener is stored, swap
it out of the record, and invoke it with the value. -/
def slotDeliver {T : Type} (v : T) (s : SlotSt T) :
    Option (SlotSt T × List (SlotCall T)) :=
  if s.alive then
    match s.whoAwaitsData with
    | some h => some ({ s with whoAwaitsData := none }, [.toData h v])
    | none => none
  else some (s, [])

/-- `slot::operator()(data_listener)` (l_async.h:283-292): assert no data
listener is stored, store the new one, then — if a request listener was
parked — swap it out and invoke it with `terminate = false`. -/
def slotRequest {T : Type} (h : Nat) (s : SlotSt T) :
    Option (SlotSt T × List (SlotCall T)) :=
  if s.whoAwaitsData.isSome then none
  else
    match s.whoAwaitsRequest with
    | some r =>
      some ({ s with whoAwaitsData := some h, whoAwaitsRequest := none },
            [.toReq r false])
    | none => some ({ s with whoAwaitsData := some h }, [])

/-- `slot::data::~data` (l_async.h:235-241), run when the consumer-side
strong count reaches zero: if a request listener is stored, invoke it with
`terminate = true`; the record then no longer exists. -/
def slotDestroy {T : Type} (s : SlotSt T) : SlotSt T × List (SlotCall T) :=
  (⟨false, none, none⟩,
    match s.whoAwaitsRequest with
    | some r => [.toReq r true]
    | none => [])

/-- Number of data-waiting callbacks registered on a slot state. -/
def dataCbCount {T : Type} (s : SlotSt T) : Nat :=
  s.whoAwaitsData.toList.length

/-- Number of request-waiting callbacks registered on a slot state. -/
def reqCbCount {T : Type} (s : SlotSt T) : Nat :=
  s.whoAwaitsRequest.toList.length

/-- C4: destroying the slot record while a request-waiting callback is
registered invokes exactly that callback, exactly once, with
`terminated = true`; destroying it with no request-waiting callback invokes
nothing — even if a data-waiting callback is still registered. -/
theorem slot_destroy_terminates {T : Type} (s : SlotSt T) :
    (∀ r, s.whoAwaitsRequest = some r →
       (slotDestroy s).2 = [SlotCall.toReq r true]) ∧
    (s.whoAwaitsRequest = none → (slotDestroy s).2 = ([] : List (SlotCall T))) := by
  constructor
  · intro r hr; simp [slotDestroy, hr]
  · intro hr; simp [slotDestroy, hr]

/-- Witness for `slot_destroy_terminates`: both cases at concrete states. -/
theorem slot_destroy_terminates_witness :
    (slotDestroy (⟨true, some 5, some 9⟩ : SlotSt Nat)).2
        = [SlotCall.toReq 5 true] ∧
    (slotDestroy (⟨true, none, some 9⟩ : SlotSt Nat)).2 = [] :=
  ⟨(slot_destroy_terminates (⟨true, some 5, some 9⟩ : SlotSt Nat)).1 5 rfl,
   (slot_destroy_terminates (⟨true, none, some 9⟩ : SlotSt Nat)).2 rfl⟩

/-- C5: under the precondition that no request-waiting callback is currently
registered, `provider::await(r)` behaves by exactly three cases: consumer
side dead — `r` is invoked immediately with `true` and nothing is stored;
a data-waiting callback registered — `r` is invoked immediately with `false`
and nothing is stored; otherwise `r` is stored as the request-waiting
callback and not invoked. -/
theorem slot_await_cases {T : Type} (r : Nat) (s : SlotSt T) :
    (s.alive = false → slotAwait r s = some (s, [SlotCall.toReq r true])) ∧
    (s.alive = true → s.whoAwaitsRequest = none →
       (∀ h, s.whoAwaitsData = some h →
          slotAwait r s = some (s, [SlotCall.toReq r false])) ∧
       (s.whoAwaitsData = none →
          slotAwait r s = some ({ s with whoAwaitsRequest := some r }, []))) := by
  constructor
  · intro ha; simp [slotAwait, ha]
  · intro ha hr
    constructor
    · intro h hd; simp [slotAwait, ha, hr, hd]
    · intro hd; simp [slotAwait, ha, hr, hd]

/-- Witness for `slot_await_cases`: all three cases at concrete states. -/
theorem slot_await_cases_witness :
    slotAwait 3 (⟨false, none, none⟩ : SlotSt Nat)
        = some (⟨false, none, none⟩, [SlotCall.toReq 3 true]) ∧
    slotAwait 3 (⟨true, none, some 8⟩ : SlotSt Nat)
        = some (⟨true, none, some 8⟩, [SlotCall.toReq 3 false]) ∧
    slotAwait 3 (⟨true, none, none⟩ : SlotSt Nat)
        = some (⟨true, some 3, none⟩, []) :=
  ⟨(slot_await_cases 3 (⟨false, none, none⟩ : SlotSt Nat)).1 rfl,
   ((slot_await_cases 3 (⟨true, none, some 8⟩ : SlotSt Nat)).2 rfl rfl).1 8 rfl,
   ((slot_await_cases 3 (⟨true, none, none⟩ : SlotSt Nat)).2 rfl rfl).2 rfl⟩

/-- C6: on every slot state at most one data-waiting and at most one
request-waiting callback exist (each lives in a single one-element field);
and `deliver` swaps the data-waiting callback out of the slot before
invoking it — the state on which the callback runs has no data-waiting
callback registered, so a nested `request` issued from inside the delivered
callback passes its precondition (it does not hit the `assert`). -/
theorem slot_deliver_reentrancy {T : Type} (v : T) (s : SlotSt T) :
    (∀ u : SlotSt T, dataCbCount u ≤ 1 ∧ reqCbCount u ≤ 1) ∧
    (∀ h, s.alive = true → s.whoAwaitsData = some h →
       slotDeliver v s
           = some ({ s with whoAwaitsData := none }, [SlotCall.toData h v]) ∧
       ∀ h', (@slotRequest T h' { s with whoAwaitsData := none }).isSome = true) := by
  constructor
  · intro u
    constructor
    · cases hu : u.whoAwaitsData <;> simp [dataCbCount, hu]
    · cases hu : u.whoAwaitsRequest <;> simp [reqCbCount, hu]
  · intro h ha hd
    constructor
    · simp [slotDeliver, ha, hd]
    · intro h'
      cases hr : s.whoAwaitsRequest <;> simp [slotRequest, hr]

/-- Witness for `slot_deliver_reentrancy` at a concrete state. -/
theorem slot_deliver_reentrancy_witness :
    slotDeliver (42 : Nat) (⟨true, none, some 8⟩ : SlotSt Nat)
        = some (⟨true, none, none⟩, [SlotCall.toData 8 42]) ∧
    (slotRequest 9 (⟨true, none, none⟩ : SlotSt Nat)).isSome = true :=
  ⟨((slot_deliver_reentrancy (42 : Nat)
      (⟨true, none, some 8⟩ : SlotSt Nat)).2 8 rfl rfl).1,
   ((slot_deliver_reentrancy (42 : Nat)
      (⟨true, none, some 8⟩ : SlotSt Nat)).2 8 rfl rfl).2 9⟩

/-- C7 (counterexample).  The claim says calling `deliver` after the consumer
side is dead fails loudly rather than succeeding silently.  In the code,
`provider::operator()` first tries `ptr.lock()`; when the consumer is dead
the lock fails and the function returns without reaching any `assert`: the
call is a silent no-op (no failure, and no callback invoked). -/
theorem slot_deliver_dead_cex :
    slotDeliver (0 : Nat) (⟨false, none, none⟩ : SlotSt Nat)
      = some (⟨false, none, none⟩, []) := by
  simp [slotDeliver]

/-- C7 (amended): `deliver(v)` while the consumer is alive requires a
registered data-waiting callback — it takes the callback, clears the slot,
and invokes it with `v`; while alive with no data-waiting callback it fails
the assertion; after the consumer side is dead it is a silent no-op that
invokes nothing. -/
theorem slot_deliver_spec {T : Type} (v : T) (s : SlotSt T) :
    (∀ h, s.alive = true → s.whoAwaitsData = some h →
       slotDeliver v s
         = some ({ s with whoAwaitsData := none }, [SlotCall.toData h v])) ∧
    (s.alive = true → s.whoAwaitsData = none → slotDeliver v s = none) ∧
    (s.alive = false → slotDeliver v s = some (s, [])) := by
  refine ⟨?_, ?_, ?_⟩
  · intro h ha hd; simp [slotDeliver, ha, hd]
  · intro ha hd; simp [slotDeliver, ha, hd]
  · intro ha; simp [slotDeliver, ha]

/-- Witness for `slot_deliver_spec`: all three cases at concrete states. -/
theorem slot_deliver_spec_witness :
    slotDeliver (7 : Nat) (⟨true, none, some 2⟩ : SlotSt Nat)
        = some (⟨true, none, none⟩, [SlotCall.toData 2 7]) ∧
    slotDeliver (7 : Nat) (⟨true, none, none⟩ : SlotSt Nat) = none ∧
    slotDeliver (7 : Nat) (⟨false, none, none⟩ : SlotSt Nat)
        = some (⟨false, none, none⟩, []) :=
  ⟨(slot_deliver_spec (7 : Nat) (⟨true, none, some 2⟩ : SlotSt Nat)).1 2 rfl rfl,
   (slot_deliver_spec (7 : Nat) (⟨true, none, none⟩ : SlotSt Nat)).2.1 rfl rfl,
   (slot_deliver_spec (7 : Nat) (⟨false, none, none⟩ : SlotSt Nat)).2.2 rfl⟩

/-- C10: when the consumer calls `request(h)` on a slot on which a producer
request-waiting callback `r` is parked, `h` is stored as the data-waiting
callback (and `r` unparked) in the state on which `r` is then invoked with
`terminated = false`; consequently a `deliver(v)` issued synchronously from
inside `r` finds `h` registered and invokes `h` with `v`. -/
theorem slot_request_rendezvous {T : Type} (v : T) (h r : Nat) (s : SlotSt T)
    (halive : s.alive = true) (hreq : s.whoAwaitsRequest = some r)
    (hdata : s.whoAwaitsData = none) :
    slotRequest h s
        = some ({ s with whoAwaitsData := some h, whoAwaitsRequest := none },
                [SlotCall.toReq r false]) ∧
    slotDeliver v { s with whoAwaitsData := some h, whoAwaitsRequest := none }
        = some ({ s with whoAwaitsData := none, whoAwaitsRequest := none },
                [SlotCall.toData h v]) := by
  constructor
  · simp [slotRequest, hdata, hreq]
  · simp [slotDeliver, halive]

/-- Witness for `slot_request_rendezvous` at a concrete slot state. -/
theorem slot_request_rendezvous_witness :
    slotRequest 4 (⟨true, some 6, none⟩ : SlotSt Nat)
        = some (⟨true, none, some 4⟩, [SlotCall.toReq 6 false]) ∧
    slotDeliver (11 : Nat) (⟨true, none, some 4⟩ : SlotSt Nat)
        = some (⟨true, none, none⟩, [SlotCall.toData 4 11]) :=
  slot_request_rendezvous (11 : Nat) 4 6 (⟨true, some 6, none⟩ : SlotSt Nat)
    rfl rfl rfl

/-! ## Result cell

`l_async::result` (l_async.h:144-187).  The shared record `data_t` holds a
value and a finalizer callback; `~data_t` runs `callback(std::move(data))`,
and `std::shared_ptr` runs `~data_t` exactly when the last strong owner
drops.  `setter(X& dst)` (l_async.h:182-186) manufactures a field-setter
closure `[dst = &dst, holder = ptr](X v){ *dst = move(v); }` — it captures a
strong reference (`holder = ptr`) and, when invoked, assigns through the
field pointer into the cell's value.

The model makes the reference-count discipline explicit: `owners` counts the
plain strong handles (`result` copies and other captures of `ptr`), and each
live setter closure contributes one more strong reference.  The bound field
of a setter is modelled by its assignment action `X → T → T` (write this `x`
into that field of the composite value).  `finLog` records every invocation
of the finalizer, with the value it received.  An execution is a list of
events folded over the state; `none` marks an event that is illegal in C++
(use of a handle that no longer exists). -/

structure CellSt (T X : Type) where
  value : T
  owners : Nat
  setters : List (Option (X → T → T))
  finLog : List T

/-- Number of setter closures still alive (still holding their `holder`). -/
def liveSetters {T X : Type} (s : CellSt T X) : Nat :=
  (s.setters.filterMap id).length

/-- Total strong reference count of the record: plain handles plus live
setter closures. -/
def strongCount {T X : Type} (s : CellSt T X) : Nat :=
  s.owners + liveSetters s

/-- `~data_t` via `shared_ptr`: when the strong count has just reached zero,
the destructor runs `callback(std::move(data))` — recorded in `finLog`. -/
def fireIfDead {T X : Type} (s : CellSt T X) : CellSt T X :=
  if strongCount s = 0 then { s with finLog := s.finLog ++ [s.value] } else s

/-- Events on one result cell record. -/
inductive CEvent (T X : Type) where
  | copy
  | drop
  | assign (v : T)
  | mkSetter (f : X → T → T)
  | callSetter (i : Nat) (x : X)
  | dropSetter (i : Nat)

/-- One event: copying a handle, dropping a handle (running `~data_t` if it
was the last), assigning through `operator*`/`operator->`, manufacturing a
setter (which copies `ptr`), invoking a setter, dropping a setter closure
(running `~data_t` if its `holder` was the last reference). -/
def cstep {T X : Type} (s : CellSt T X) : CEvent T X → Option (CellSt T X)
  | .copy => if 0 < strongCount s then some { s with owners := s.owners + 1 } else none
  | .drop =>
    if 0 < s.owners then some (fireIfDead { s with owners := s.owners - 1 })
    else none
  | .assign v => if 0 < strongCount s then some { s with value := v } else none
  | .mkSetter f =>
    if 0 < s.owners then some { s with setters := s.setters ++ [some f] }
    else none
  | .callSetter i x =>
    match s.setters.get? i with
    | some (some f) => some { s with value := f x s.value }
    | _ => none
  | .dropSetter i =>
    match s.setters.get? i with
    | some (some _) => some (fireIfDead { s with setters := s.setters.set i none })
    | _ => none

/-- Folding a list of events over a cell state. -/
def crun {T X : Type} (s : CellSt T X) : List (CEvent T X) → Option (CellSt T X)
  | [] => some s
  | e :: es => (cstep s e).bind (fun s' => crun s' es)

/-- `result::result(callback, initial_value)`: one strong owner, the initial
value stored, the finalizer not yet invoked. -/
def mkCell {T X : Type} (v0 : T) : CellSt T X := ⟨v0, 1, [], []⟩

/-- A live setter entry forces a positive live-setter count. -/
theorem liveSetters_pos {T X : Type} (s : CellSt T X) (i : Nat)
    (f : X → T → T) (hi : s.setters.get? i = some (some f)) :
    0 < liveSetters s := by
  have hmem : some f ∈ s.setters := List.get?_mem hi
  have : f ∈ s.setters.filterMap id := List.mem_filterMap.mpr ⟨some f, hmem, rfl⟩
  exact List.length_pos.mpr (List.ne_nil_of_mem this)

/-- If the finalizer has not fired yet, running the destructor check keeps
the invariant: the log stays empty while someone still owns the record, and
becomes the one-element log of the current value when the count is zero. -/
theorem fireIfDead_inv {T X : Type} (u : CellSt T X) (hu : u.finLog = []) :
    (fireIfDead u).finLog
      = if strongCount (fireIfDead u) = 0 then [(fireIfDead u).value] else [] := by
  by_cases hz : strongCount u = 0
  · have hfd : fireIfDead u = { u with finLog := u.finLog ++ [u.value] } := by
      simp [fireIfDead, hz]
    rw [hfd]
    have h1 : strongCount { u with finLog := u.finLog ++ [u.value] } = 0 := hz
    rw [if_pos h1]
    simp [hu]
  · have hfd : fireIfDead u = u := by simp [fireIfDead, hz]
    rw [hfd, if_neg hz, hu]

/-- The single-step finalizer invariant: at every moment the finalizer log is
empty while some strong reference survives, and holds exactly the current
value once the strong count has reached zero. -/
theorem cstep_finLog {T X : Type} (s s' : CellSt T X) (e : CEvent T X)
    (hinv : s.finLog = if strongCount s = 0 then [s.value] else [])
    (h : cstep s e = some s') :
    s'.finLog = if strongCount s' = 0 then [s'.value] else [] := by
  have hlog : 0 < strongCount s → s.finLog = [] := by
    intro hpos; rw [hinv, if_neg (by omega)]
  cases e with
  | copy =>
    simp only [cstep] at h
    split at h
    · next hpos =>
      obtain rfl := Option.some.inj h
      have hsc : strongCount { s with owners := s.owners + 1 }
          = strongCount s + 1 := by
        simp only [strongCount, liveSetters]
        omega
      have hne : ¬ strongCount { s with owners := s.owners + 1 } = 0 := by omega
      rw [if_neg hne]
      exact hlog hpos
    · exact Option.noConfusion h
  | drop =>
    simp only [cstep] at h
    split at h
    · next hpos =>
      obtain rfl := Option.some.inj h
      exact fireIfDead_inv _ (hlog (by simp only [strongCount]; omega))
    · exact Option.noConfusion h
  | assign v =>
    simp only [cstep] at h
    split at h
    · next hpos =>
      obtain rfl := Option.some.inj h
      have hsc : strongCount { s with value := v } = strongCount s := rfl
      have hne : ¬ strongCount { s with value := v } = 0 := by omega
      rw [if_neg hne]
      exact hlog hpos
    · exact Option.noConfusion h
  | mkSetter f =>
    simp only [cstep] at h
    split at h
    · next hpos =>
      obtain rfl := Option.some.inj h
      have hsc : strongCount { s with setters := s.setters ++ [some f] }
          = strongCount s + 1 := by
        simp only [strongCount, liveSetters, List.filterMap_append,
          List.length_append]
        simp
        omega
      have hne : ¬ strongCount { s with setters := s.setters ++ [some f] }
          = 0 := by omega
      rw [if_neg hne]
      exact hlog (by simp only [strongCount]; omega)
    · exact Option.noConfusion h
  | callSetter i x =>
    simp only [cstep] at h
    cases hi : s.setters.get? i with
    | none => rw [hi] at h; exact Option.noConfusion h
    | some o =>
      cases o with
      | none => rw [hi] at h; exact Option.noConfusion h
      | some f =>
        rw [hi] at h
        obtain rfl := Option.some.inj h
        have hpos : 0 < strongCount s := by
          have := liveSetters_pos s i f hi
          simp only [strongCount]; omega
        have hsc : strongCount { s with value := f x s.value }
            = strongCount s := rfl
        have hne : ¬ strongCount { s with value := f x s.value } = 0 := by omega
        rw [if_neg hne]
        exact hlog hpos
  | dropSetter i =>
    simp only [cstep] at h
    cases hi : s.setters.get? i with
    | none => rw [hi] at h; exact Option.noConfusion h
    | some o =>
      cases o with
      | none => rw [hi] at h; exact Option.noConfusion h
      | some f =>
        rw [hi] at h
        obtain rfl := Option.some.inj h
        have hpos : 0 < strongCount s := by
          have := liveSetters_pos s i f hi
          simp only [strongCount]; omega
        exact fireIfDead_inv _ (hlog hpos)

/-- The finalizer invariant extended over any event sequence. -/
theorem crun_finLog {T X : Type} :
    ∀ (es : List (CEvent T X)) (s s' : CellSt T X),
      s.finLog = (if strongCount s = 0 then [s.value] else []) →
      crun s es = some s' →
      s'.finLog = if strongCount s' = 0 then [s'.value] else [] := by
  intro es
  induction es with
  | nil =>
    intro s s' hinv h
    obtain rfl := Option.some.inj h
    exact hinv
  | cons e es ih =>
    intro s s' hinv h
    simp only [crun] at h
    cases he : cstep s e with
    | none => rw [he] at h; exact Option.noConfusion h
    | some s1 =>
      rw [he] at h
      exact ih s1 s' (cstep_finLog s s1 e hinv he) h

/-- C3: along every legal event sequence on a result cell, the finalizer log
is empty as long as any strong owner survives, and contains exactly one
entry — the value most recently assigned — from the moment the last strong
owner is dropped.  Because this holds after every prefix of the execution,
the single finalizer invocation happens synchronously at that drop. -/
theorem result_finalizer_once {T X : Type} (v0 : T)
    (es : List (CEvent T X)) (s' : CellSt T X)
    (h : crun (mkCell v0) es = some s') :
    s'.finLog = if strongCount s' = 0 then [s'.value] else [] :=
  crun_finLog es (mkCell v0) s' (by simp [mkCell, strongCount, liveSetters]) h

/-- Witness for `result_finalizer_once`: assign 5, copy the handle, drop one
copy (nothing fires), assign 7, drop the last copy — the finalizer fires
exactly then, with 7. -/
theorem result_finalizer_once_witness :
    (⟨7, 0, [], [7]⟩ : CellSt Nat Nat).finLog
      = if strongCount (⟨7, 0, [], [7]⟩ : CellSt Nat Nat) = 0
        then [(⟨7, 0, [], [7]⟩ : CellSt Nat Nat).value] else [] :=
  result_finalizer_once 0
    [CEvent.assign 5, CEvent.copy, CEvent.drop, CEvent.assign 7, CEvent.drop]
    ⟨7, 0, [], [7]⟩ rfl

/-- C9: a field-setter closure manufactured by `result::setter` holds a
strong reference to the cell (manufacturing one increases the strong count by
one); invoking a setter assigns the given value to its bound field of the
stored composite; and the finalizer fires only once every setter closure and
every other strong holder has been released (a nonempty finalizer log forces
both counts to zero). -/
theorem result_setter_spec {T X : Type} (s : CellSt T X) (f : X → T → T)
    (i : Nat) (x : X) (v0 : T) :
    (∀ s', cstep s (CEvent.mkSetter f) = some s' →
       strongCount s' = strongCount s + 1 ∧
       s'.setters = s.setters ++ [some f] ∧ s'.value = s.value) ∧
    (∀ g : X → T → T, s.setters.get? i = some (some g) →
       cstep s (CEvent.callSetter i x) = some { s with value := g x s.value }) ∧
    (∀ (es : List (CEvent T X)) (s' : CellSt T X),
       crun (mkCell v0) es = some s' → s'.finLog ≠ [] →
       liveSetters s' = 0 ∧ s'.owners = 0) := by
  refine ⟨?_, ?_, ?_⟩
  · intro s' h
    simp only [cstep] at h
    split at h
    · obtain rfl := Option.some.inj h
      refine ⟨?_, rfl, rfl⟩
      simp [strongCount, liveSetters, List.filterMap_append]
      omega
    · exact Option.noConfusion h
  · intro g hg
    simp only [cstep]
    rw [hg]
  · intro es s' h hne
    have hinv := crun_finLog es (mkCell v0) s'
      (by simp [mkCell, strongCount, liveSetters]) h
    by_cases hz : strongCount s' = 0
    · simp only [strongCount] at hz
      omega
    · rw [if_neg hz] at hinv
      exact absurd hinv hne

/-- Witness for `result_setter_spec`: a cell with one owner and one live
setter; manufacturing a second setter raises the strong count from 2 to 3,
and invoking the existing setter writes through its bound field. -/
theorem result_setter_spec_witness :
    (strongCount (⟨10, 1, [some fun x _ => x, some fun x _ => x], []⟩
        : CellSt Nat Nat)
      = strongCount (⟨10, 1, [some fun x _ => x], []⟩ : CellSt Nat Nat) + 1) ∧
    cstep (⟨10, 1, [some fun x _ => x], []⟩ : CellSt Nat Nat)
        (CEvent.callSetter 0 5)
      = some ⟨5, 1, [some fun x _ => x], []⟩ := by
  constructor
  · exact ((result_setter_spec (⟨10, 1, [some fun x _ => x], []⟩ : CellSt Nat Nat)
      (fun x _ => x) 0 5 0).1 ⟨10, 1, [some fun x _ => x, some fun x _ => x], []⟩
      (by simp [cstep])).1
  · exact (result_setter_spec (⟨10, 1, [some fun x _ => x], []⟩ : CellSt Nat Nat)
      (fun x _ => x) 0 5 0).2.1 (fun x _ => x) rfl

end LAsync
